import Mathlib

/-!
Formal model of the so-scrapper repository core: the HTML text normalizer
(`_clean_html_text` in `unified_scraper.py`), the pagination/collection loops
(`_scrape_with_beautifulsoup`, `_scrape_with_api`), the parallel page fetcher
(`bs4scraper.py`), the author-reputation lookup, and the deduplicating
persistence pipeline (`mariadb_crud.py`).
-/

namespace SOScraper

/-- ASCII model of the Python regex class \s (also the default
whitespace set of str.strip): space, tab, newline, carriage return, vertical tab, form feed. -/
def isPySpace (c : Char) : Bool :=
  c = ' ' || c = '\t' || c = '\n' || c = '\r' || c = '\x0b' || c = '\x0c'

/-- Parse tree of a markup fragment, as produced by the HTML parser
(a collaborator per the spec).  A document is a list of top-level nodes. -/
inductive Html where
  | text (s : String)
  | elem (tag : String) (children : List Html)
deriving Repr

mutual
/-- All text-node strings of a node in document order
(BeautifulSoup's `.strings`). -/
def stringsOf : Html → List String
  | .text s => [s]
  | .elem _ cs => stringsOfList cs

/-- All text-node strings of a node list in document order. -/
def stringsOfList : List Html → List String
  | [] => []
  | h :: t => stringsOf h ++ stringsOfList t
end

/-- Model of the call element.get_text() with the default empty separator: the concatenation
of all contained text nodes. -/
def getText (h : Html) : String := String.join (stringsOf h)

/-- Whether a tag is matched by the find_all for code and pre elements. -/
def isFenceTag (t : String) : Bool := t == "code" || t == "pre"

mutual
/-- The mutation loop of clean html text over find_all for code and pre
elements, setting each matched element string to its text wrapped in
newline-delimited backtick fences.  The find_all call returns
nodes in document order, so an enclosing `pre`/`code` is rewritten first and
rewriting it detaches any nested `code`, whose later mutation has no effect on
the document; hence only outermost `code`/`pre` elements are rewritten, each
replaced by its original `get_text()` wrapped in the backtick fence. -/
def wrapCode : Html → Html
  | .text s => .text s
  | .elem t cs =>
    if isFenceTag t then
      .elem t [.text ("\n```\n" ++ getText (.elem t cs) ++ "\n```\n")]
    else
      .elem t (wrapCodeList cs)

/-- The rewrite `wrapCode` mapped over a node list. -/
def wrapCodeList : List Html → List Html
  | [] => []
  | h :: l => wrapCode h :: wrapCodeList l
end

/-- Model of separator.join(strings) at the character level. -/
def joinStringsSep (sep : List Char) : List String → List Char
  | [] => []
  | [s] => s.data
  | s :: rest => s.data ++ sep ++ joinStringsSep sep rest

mutual
/-- Model of the substitution re.sub of \s+ by a single space: every maximal run of whitespace characters is
replaced by a single space. -/
def collapseWs : List Char → List Char
  | [] => []
  | c :: rest =>
    if isPySpace c then ' ' :: skipWs rest else c :: collapseWs rest

/-- Remainder of a whitespace run being collapsed by `collapseWs`. -/
def skipWs : List Char → List Char
  | [] => []
  | c :: rest =>
    if isPySpace c then skipWs rest else c :: collapseWs rest
end

/-- Index of the last newline inside the maximal leading whitespace run of `l`
(`none` when that run contains no newline).  This is where the greedy `\s*` of
the blank-line substitution regex \n\s*\n places its closing newline. -/
def lastNlIdx (l : List Char) : Option Nat :=
  (((l.takeWhile isPySpace).enum.filter (fun p => p.2 = '\n')).getLast?).map
    (fun p => p.1)

/-- Model of the substitution re.sub of \n\s*\n by two newlines, with explicit fuel (the scan consumes at
least one character per step, so `l.length` fuel always suffices): scanning left
to right, a newline followed by a whitespace run that contains another newline
is replaced — up to the last newline of the run, greedily — by exactly two
newlines, and the scan resumes after the consumed characters. -/
def subBlankFuel : Nat → List Char → List Char
  | _, [] => []
  | 0, l => l
  | fuel + 1, c :: rest =>
    if c = '\n' then
      match lastNlIdx rest with
      | some j => '\n' :: '\n' :: subBlankFuel fuel (rest.drop (j + 1))
      | none => c :: subBlankFuel fuel rest
    else c :: subBlankFuel fuel rest

/-- Model of the substitution re.sub of \n\s*\n by two newlines. -/
def subBlank (l : List Char) : List Char := subBlankFuel l.length l

/-- Python `str.strip()`: remove leading and trailing whitespace. -/
def trimChars (l : List Char) : List Char :=
  ((l.dropWhile isPySpace).reverse.dropWhile isPySpace).reverse

mutual
/-- Whether a node is or contains a `code`/`pre` element. -/
def containsCodePre : Html → Bool
  | .text _ => false
  | .elem t cs => isFenceTag t || containsCodePreList cs

/-- Whether a node list contains a `code`/`pre` element. -/
def containsCodePreList : List Html → Bool
  | [] => false
  | h :: l => containsCodePre h || containsCodePreList l
end

/-- Model of StackOverflowScraper clean html text on a parsed document: rewrite
`code`/`pre` elements as fenced text, flatten to visible text joining text
nodes with a single space (soup get_text with a one-space separator), collapse whitespace
runs to one space, apply the blank-line substitution, and strip.  The empty or
absent input corresponds to the empty document and yields `""`. -/
def clean_html_text (doc : List Html) : String :=
  let wrapped := wrapCodeList doc
  let joined := joinStringsSep [' '] (stringsOfList wrapped)
  String.mk (trimChars (subBlank (collapseWs joined)))

/-! ## Collection loops (`unified_scraper.py`)

The page fetch plus per-page parse is a collaborator capability: `pages n` is
the parsed question list of list-page `n` (`none` models a failed request,
which the loop treats as end of source).  Fuel bounds the number of loop
iterations; since every continuing iteration appends at least one record,
`num` iterations always suffice (proved below as fuel-irrelevance). -/

/-- Loop body of `StackOverflowScraper._scrape_with_beautifulsoup`:
while fewer than `num` records are accumulated, fetch the next page; a request
error or an empty page ends the loop; otherwise append the page's records,
stopping at `num` (the inner `for` breaks once the target is reached). -/
def collectBS (pages : Nat → Option (List α)) :
    Nat → Nat → Nat → List α → List α
  | 0, _, _, acc => acc
  | fuel + 1, page, num, acc =>
    if acc.length < num then
      match pages page with
      | none => acc
      | some [] => acc
      | some qs => collectBS pages fuel (page + 1) num
          (acc ++ qs.take (num - acc.length))
    else acc

/-- Model of the scrape-with-beautifulsoup entry point: run the collection
loop from page 1 and return `questions_data[:num]`. -/
def scrape_with_beautifulsoup (pages : Nat → Option (List α)) (num : Nat) :
    List α :=
  (collectBS pages num 1 num []).take num

/-- Loop body of `StackOverflowScraper._scrape_with_api`: one API page yields
its parsed items together with the response's `has_more` flag; a request error
or an empty/missing `items` field ends the loop; otherwise items are appended
(capped at `num`) and the loop continues only while `has_more` is set. -/
def collectApi (pages : Nat → Option (List α × Bool)) :
    Nat → Nat → Nat → List α → List α
  | 0, _, _, acc => acc
  | fuel + 1, page, num, acc =>
    if acc.length < num then
      match pages page with
      | none => acc
      | some (items, hasMore) =>
        if items.isEmpty then acc
        else
          let acc' := acc ++ items.take (num - acc.length)
          if hasMore then collectApi pages fuel (page + 1) num acc' else acc'
    else acc

/-- Model of the scrape-with-api entry point: run the API collection loop
from page 1 and return `questions_data[:num]`. -/
def scrape_with_api (pages : Nat → Option (List α × Bool)) (num : Nat) :
    List α :=
  (collectApi pages num 1 num []).take num

/-! ## Parallel page fetching (`bs4scraper.py`) -/

/-- Model of bs4scraper scrape_page: fetch one list page — a request
exception is caught and yields the empty list — and parse each question
summary of a successful page, in page order, into a record. -/
def scrape_page (fetch : Nat → Option (List σ)) (build : σ → ρ) (p : Nat) :
    List ρ :=
  match fetch p with
  | none => []
  | some qs => qs.map build

/-- Model of the parallel page scraper of bs4scraper: the worker pool submits
pages `1..max_pages`; results are drained with `as_completed` — i.e. in some
completion order `order`, a permutation of the submitted page numbers — and
each page's records are appended in turn onto the flat result. -/
def scrape_pages_parallel (fetch : Nat → Option (List σ)) (build : σ → ρ)
    (order : List Nat) : List ρ :=
  (order.map (scrape_page fetch build)).flatten

/-! ## Author reputation lookup (`unified_scraper.py`) -/

/-- Python `str.strip()`. -/
def pyStrip (s : String) : String := String.mk (trimChars s.data)

/-- Python `str.replace(',', '')`. -/
def removeCommas (s : String) : String :=
  String.mk (s.data.filter (fun c => c ≠ ','))

/-- ASCII model of Python `str.isdigit()` — `False` on the empty string,
`True` iff every character is a decimal digit. -/
def pyIsDigit (s : String) : Bool := s ≠ "" && s.data.all Char.isDigit

/-- Value of int(s) on a decimal-digit string. -/
def digitsToInt (s : String) : Int :=
  Int.ofNat (s.data.foldl (fun a c => a * 10 + (c.toNat - 48)) 0)

/-- Model of the BeautifulSoup author-reputation lookup:
fetch the detail page (any exception is caught, yielding `None`), select the
`.reputation-score` element (`none` when missing), strip its text and drop
commas, and return the integer value only when the remaining text is all
digits — otherwise `None`.  `fetchPage` and `findRepText` are the fetch and
element-lookup collaborator capabilities. -/
def get_author_reputation_bs4 (fetchPage : String → Option π)
    (findRepText : π → Option String) (url : String) : Option Int :=
  match fetchPage url with
  | none => none
  | some page =>
    match findRepText page with
    | none => none
    | some t =>
      let repText := removeCommas (pyStrip t)
      if pyIsDigit repText then some (digitsToInt repText) else none

/-- Model of the Selenium author-reputation lookup:
identical guard logic against a live DOM — navigation, the explicit wait and
`find_element` failures all raise, are caught, and yield `None`; the
navigate-back step does not affect the returned value. -/
def get_author_reputation_selenium (fetchPage : String → Option π)
    (findRepText : π → Option String) (url : String) : Option Int :=
  match fetchPage url with
  | none => none
  | some page =>
    match findRepText page with
    | none => none
    | some t =>
      let repText := removeCommas (pyStrip t)
      if pyIsDigit repText then some (digitsToInt repText) else none

/-! ## Deduplicating persistence pipeline (`mariadb_crud.py`)

The relational store is modelled as explicit table state.  Each table is the
list of its rows in insertion order (the order in which an unordered `SELECT`
returns them), with `AUTO_INCREMENT` counters carried alongside.  A cursor's
uncommitted writes are modelled by threading a working copy of the state:
`connection.commit()` makes the working copy the result, and the
`connection.rollback()` performed on an exception corresponds to discarding
the working copy and keeping the pre-transaction state.  An unexpected storage
failure (a constraint violation other than the duplicate link, or a lost
connection — the spec's persistence-failure taxonomy) is injected at the
question `INSERT` by the oracle `failInsert`. -/

/-- The `QuestionData` dataclass of `unified_scraper.py`.  The publication
date is kept as an uninterpreted optional value. -/
structure QuestionData where
  title : String
  link : String
  text : String
  tags : List String
  author_name : String
  author_reputation : Option Int
  publication_date : Option String
deriving Repr, DecidableEq

/-- A row of the `authors` table. -/
structure AuthorRow where
  id : Nat
  name : String
  reputation : Option Int
deriving Repr, DecidableEq

/-- A row of the `tags` table (`name` carries a UNIQUE constraint). -/
structure TagRow where
  id : Nat
  name : String
deriving Repr, DecidableEq

/-- A row of the `questions` table (`link` carries a UNIQUE constraint). -/
structure QuestionRow where
  id : Nat
  title : String
  link : String
  text : String
  author_id : Option Nat
  publication_date : Option String
  scrape_method : Option String
deriving Repr, DecidableEq

/-- The database state: the four relations of `_create_tables` plus their
`AUTO_INCREMENT` counters. -/
structure DB where
  authors : List AuthorRow
  tags : List TagRow
  questions : List QuestionRow
  question_tags : List (Nat × Nat)
  nextAuthor : Nat
  nextTag : Nat
  nextQuestion : Nat
deriving Repr, DecidableEq

/-- The empty database created by `_create_tables`. -/
def DB.empty : DB := ⟨[], [], [], [], 1, 1, 1⟩

/-- Python truthiness of the optional `reputation` argument: `None` and `0`
are falsy. -/
def repTruthy : Option Int → Bool
  | none => false
  | some v => v != 0

/-- Model of MariaDBCRUD get-or-create-author:
`SELECT id, reputation FROM authors WHERE name = %s` takes the first match;
when found, `UPDATE` the stored reputation only `if reputation and
current_rep != reputation`; otherwise `INSERT` a new author row.  Returns the
updated working state and the author id (`cursor.lastrowid` on insert). -/
def get_or_create_author (db : DB) (name : String) (reputation : Option Int) :
    DB × Nat :=
  match db.authors.find? (fun a => a.name == name) with
  | some a =>
    if repTruthy reputation && a.reputation != reputation then
      ({ db with
          authors := db.authors.map
            (fun r => if r.id == a.id then { r with reputation } else r) },
        a.id)
    else (db, a.id)
  | none =>
    ({ db with
        authors := db.authors ++ [⟨db.nextAuthor, name, reputation⟩],
        nextAuthor := db.nextAuthor + 1 },
      db.nextAuthor)

/-- Model of MariaDBCRUD get-or-create-tag: first row matching the
name, else a fresh `INSERT`. -/
def get_or_create_tag (db : DB) (tagName : String) : DB × Nat :=
  match db.tags.find? (fun t => t.name == tagName) with
  | some t => (db, t.id)
  | none =>
    ({ db with
        tags := db.tags ++ [⟨db.nextTag, tagName⟩],
        nextTag := db.nextTag + 1 },
      db.nextTag)

/-- One iteration of the tag loop of `create_question`: resolve or create the
tag row, then `INSERT IGNORE` the `(question_id, tag_id)` junction row (a
no-op when the pair already exists). -/
def insertTagStep (qid : Nat) (d : DB) (tagName : String) : DB :=
  let r := get_or_create_tag d tagName
  if (qid, r.2) ∈ r.1.question_tags then r.1
  else { r.1 with question_tags := r.1.question_tags ++ [(qid, r.2)] }

/-- The tag loop of `create_question` over the record's tag list. -/
def insertTags (qid : Nat) (db : DB) (tagNames : List String) : DB :=
  tagNames.foldl (insertTagStep qid) db

/-- Model of MariaDBCRUD create_question: raise
`ValueError` when a question row with the same link exists; otherwise resolve
the author, `INSERT` the question (where the injected storage failure, if any,
strikes — modelled by `failInsert`), run the tag loop, and commit.  `.error`
is an escaped exception: `connection.rollback()` has discarded every
uncommitted write of this call, so the caller keeps the pre-call state. -/
def create_question (failInsert : QuestionData → Bool) (db : DB)
    (q : QuestionData) (method : Option String) : Except Unit (DB × Nat) :=
  if (db.questions.find? (fun r => r.link == q.link)).isSome then
    .error ()
  else
    let a := get_or_create_author db q.author_name q.author_reputation
    if failInsert q then .error ()
    else
      let qid := a.1.nextQuestion
      let db2 := { a.1 with
        questions := a.1.questions ++
          [⟨qid, q.title, q.link, q.text, some a.2, q.publication_date,
            method⟩],
        nextQuestion := a.1.nextQuestion + 1 }
      .ok (insertTags qid db2 q.tags, qid)

/-- Model of MariaDBCRUD create_question_if_not_exists:
look the link up first; an existing row is returned with `created = False`,
otherwise `create_question` runs (its exception propagates). -/
def create_question_if_not_exists (failInsert : QuestionData → Bool) (db : DB)
    (q : QuestionData) (method : Option String) :
    Except Unit (DB × Nat × Bool) :=
  match db.questions.find? (fun r => r.link == q.link) with
  | some row => .ok (db, row.id, false)
  | none =>
    match create_question failInsert db q method with
    | .ok (db', qid) => .ok (db', qid, true)
    | .error e => .error e

/-- One iteration of the `create_questions_batch` loop: a created question
appends its id, a duplicate bumps `skipped_count`, and an exception from
`create_question_if_not_exists` is caught (state already rolled back by
`create_question`) and the loop continues with the next record. -/
def batchStep (failInsert : QuestionData → Bool) (method : Option String)
    (st : DB × List Nat × Nat) (q : QuestionData) : DB × List Nat × Nat :=
  match create_question_if_not_exists failInsert st.1 q method with
  | .ok (d', qid, true) => (d', st.2.1 ++ [qid], st.2.2)
  | .ok (d', _, false) => (d', st.2.1, st.2.2 + 1)
  | .error _ => st

/-- Model of MariaDBCRUD create_questions_batch:
fold the per-record step over the batch.  Returns the final state,
`created_ids`, and the reported duplicate count. -/
def create_questions_batch (failInsert : QuestionData → Bool) (db : DB)
    (qs : List QuestionData) (method : Option String) :
    DB × List Nat × Nat :=
  qs.foldl (batchStep failInsert method) (db, [], 0)

/-- The always-successful storage backend: no injected persistence failure. -/
def noFail : QuestionData → Bool := fun _ => false

/-- Whether some question row carries the given link (the existence check
`SELECT id FROM questions WHERE link = %s`). -/
def hasLink (db : DB) (link : String) : Bool :=
  (db.questions.find? (fun r => r.link == link)).isSome

/-- The author-resolution steps performed by a sequence of records sharing one
`author_name`: fold `_get_or_create_author` over the observed reputations. -/
def processAuthors (db : DB) (name : String) (reps : List (Option Int)) : DB :=
  reps.foldl (fun d rep => (get_or_create_author d name rep).1) db

/-! ## Collector theorems -/

/-- The collection loop keeps the accumulator within the target. -/
theorem collectBS_length_le (pages : Nat → Option (List α)) :
    ∀ fuel page num (acc : List α), acc.length ≤ num →
      (collectBS pages fuel page num acc).length ≤ num := by
  intro fuel
  induction fuel with
  | zero => intro page num acc h; simpa [collectBS] using h
  | succ n ih =>
    intro page num acc h
    simp only [collectBS]
    split
    · cases hp : pages page with
      | none => exact h
      | some qs =>
        cases qs with
        | nil => exact h
        | cons a as =>
          apply ih
          simp [List.length_take]
          omega
    · exact h

/-- When every page keeps yielding records, the loop reaches exactly the
target: each continuing iteration appends at least one record, so fuel
covering the remaining deficit suffices. -/
theorem collectBS_length_eq (pages : Nat → Option (List α))
    (hne : ∀ p, ∃ qs, pages p = some qs ∧ qs ≠ []) :
    ∀ fuel page num (acc : List α), acc.length ≤ num →
      num - acc.length ≤ fuel →
      (collectBS pages fuel page num acc).length = num := by
  intro fuel
  induction fuel with
  | zero =>
    intro page num acc h1 h2
    simp only [collectBS]
    omega
  | succ n ih =>
    intro page num acc h1 h2
    simp only [collectBS]
    split
    · obtain ⟨qs, hp, hqs⟩ := hne page
      rw [hp]
      cases qs with
      | nil => exact absurd rfl hqs
      | cons a as =>
        apply ih
        · simp [List.length_take]; omega
        · simp [List.length_take]; omega
    · omega

/-- Same for the API loop, whose every page also reports `has_more`. -/
theorem collectApi_length_eq (pages : Nat → Option (List α × Bool))
    (hne : ∀ p, ∃ items, pages p = some (items, true) ∧ items ≠ []) :
    ∀ fuel page num (acc : List α), acc.length ≤ num →
      num - acc.length ≤ fuel →
      (collectApi pages fuel page num acc).length = num := by
  intro fuel
  induction fuel with
  | zero =>
    intro page num acc h1 h2
    simp only [collectApi]
    omega
  | succ n ih =>
    intro page num acc h1 h2
    simp only [collectApi]
    split
    · obtain ⟨items, hp, hitems⟩ := hne page
      rw [hp]
      cases items with
      | nil => exact absurd rfl hitems
      | cons a as =>
        simp only [List.isEmpty_cons, if_false, Bool.false_eq_true, if_true]
        apply ih
        · simp [List.length_take]; omega
        · simp [List.length_take]; omega
    · omega

/-- C5: the collection loop is capped at exactly the target count.  For both
the HTML-list loop and the API loop: the returned sequence never exceeds
`num` records, and whenever the source keeps yielding records (every page
fetch succeeds with a nonempty record list — for the API, also with
`has_more` set), exactly `num` records are returned. -/
theorem collector_cap (pages : Nat → Option (List α))
    (pagesA : Nat → Option (List α × Bool)) (num : Nat) :
    (scrape_with_beautifulsoup pages num).length ≤ num ∧
    (scrape_with_api pagesA num).length ≤ num ∧
    ((∀ p, ∃ qs, pages p = some qs ∧ qs ≠ []) →
      (scrape_with_beautifulsoup pages num).length = num) ∧
    ((∀ p, ∃ items, pagesA p = some (items, true) ∧ items ≠ []) →
      (scrape_with_api pagesA num).length = num) := by
  refine ⟨?_, ?_, ?_, ?_⟩
  · simp [scrape_with_beautifulsoup, List.length_take]
  · simp [scrape_with_api, List.length_take]
  · intro hne
    have h := collectBS_length_eq pages hne num 1 num [] (by simp) (by simp)
    simp [scrape_with_beautifulsoup, List.length_take, h]
  · intro hne
    have h := collectApi_length_eq pagesA hne num 1 num [] (by simp) (by simp)
    simp [scrape_with_api, List.length_take, h]

/-- Witness for `collector_cap`: a source offering 10 records per page
indefinitely, collected with `target_count = 25`, yields exactly 25 records. -/
theorem collector_cap_witness :
    (scrape_with_beautifulsoup (fun _ => some (List.range 10)) 25).length = 25 ∧
    (scrape_with_api (fun _ => some (List.range 10, true)) 25).length = 25 := by
  constructor
  · exact (collector_cap (fun _ => some (List.range 10))
      (fun _ => some (List.range 10, true)) 25).2.2.1
      (fun p => ⟨List.range 10, rfl, by decide⟩)
  · exact (collector_cap (fun _ => some (List.range 10))
      (fun _ => some (List.range 10, true)) 25).2.2.2
      (fun p => ⟨List.range 10, rfl, by decide⟩)

/-- C6: the collection loop terminates on an exhausted source.  Whenever the
loop is about to process a page whose fetch fails or which yields zero
records, it returns the records accumulated so far; in particular, when every
page is empty, collection returns the empty sequence. -/
theorem collector_exhaustion (pages : Nat → Option (List α)) (num : Nat) :
    (∀ fuel page (acc : List α),
      pages page = none ∨ pages page = some [] →
      collectBS pages (fuel + 1) page num acc = acc) ∧
    ((∀ p, pages p = some []) → scrape_with_beautifulsoup pages num = []) := by
  have hstop : ∀ fuel page (acc : List α),
      pages page = none ∨ pages page = some [] →
      collectBS pages (fuel + 1) page num acc = acc := by
    intro fuel page acc h
    simp only [collectBS]
    split
    · rcases h with h | h <;> rw [h]
    · rfl
  refine ⟨hstop, ?_⟩
  intro hempty
  cases num with
  | zero => simp [scrape_with_beautifulsoup, collectBS]
  | succ n =>
    simp [scrape_with_beautifulsoup, hstop n 1 [] (Or.inr (hempty 1))]

/-- Witness for `collector_exhaustion`: a source that always returns zero
records makes `collect(target_count = 50)` return the empty sequence. -/
theorem collector_exhaustion_witness :
    scrape_with_beautifulsoup (fun _ => some ([] : List Nat)) 50 = [] :=
  (collector_exhaustion (fun _ => some ([] : List Nat)) 50).2 (fun _ => rfl)

/-! ## Parallel fetch theorems -/

/-- Flattening respects permutation of the page blocks. -/
theorem perm_flatten {l₁ l₂ : List (List ρ)} (h : l₁.Perm l₂) :
    l₁.flatten.Perm l₂.flatten := by
  induction h with
  | nil => rfl
  | cons x _ ih => simpa using ih.append_left x
  | swap x y l =>
    simp only [List.flatten_cons, ← List.append_assoc]
    exact (List.perm_append_comm).append_right _
  | trans _ _ ih1 ih2 => exact ih1.trans ih2

/-- C9: parallel fetch mode is fail-open and exactly-once.  A page whose fetch
fails contributes the empty result, and for every completion order (a
permutation of the submitted page range) the flattened output is a
permutation of the sequential page-order output — every record of every
successfully fetched page appears exactly once, with only inter-page ordering
affected. -/
theorem parallel_fetch_exactly_once (fetch : Nat → Option (List σ))
    (build : σ → ρ) (order : List Nat) (n : Nat)
    (horder : order.Perm (List.range' 1 n)) :
    (∀ p, fetch p = none → scrape_page fetch build p = []) ∧
    (scrape_pages_parallel fetch build order).Perm
      (scrape_pages_parallel fetch build (List.range' 1 n)) := by
  constructor
  · intro p hp
    simp [scrape_page, hp]
  · exact perm_flatten (horder.map (scrape_page fetch build))

/-- Witness for `parallel_fetch_exactly_once`: three pages completing in the
order 2, 3, 1, with page 2's fetch failing, produce a permutation of the
sequential output, and the failing page contributes nothing. -/
theorem parallel_fetch_exactly_once_witness :
    (scrape_page (fun p => if p = 2 then none else some [p, p + 10])
        (fun x => x) 2 = []) ∧
    (scrape_pages_parallel (fun p => if p = 2 then none else some [p, p + 10])
        (fun x => x) [2, 3, 1]).Perm
      (scrape_pages_parallel (fun p => if p = 2 then none else some [p, p + 10])
        (fun x => x) (List.range' 1 3)) := by
  constructor
  · exact (parallel_fetch_exactly_once
      (fun p => if p = 2 then none else some [p, p + 10]) (fun x => x)
      [2, 3, 1] 3 (by decide)).1 2 rfl
  · exact (parallel_fetch_exactly_once
      (fun p => if p = 2 then none else some [p, p + 10]) (fun x => x)
      [2, 3, 1] 3 (by decide)).2

/-! ## Reputation lookup theorem -/

/-- C10: the reputation lookup is total and digit-guarded.  It returns `none`
on fetch failure, on a missing reputation element, and on any element text
whose comma-stripped form is not all decimal digits (such as `10.5k`); it
returns an integer only when that form is all digits, and every returned
integer is the non-negative value of those digits.  The Selenium variant
computes the same function. -/
theorem reputation_guard (fetchPage : String → Option π)
    (findRepText : π → Option String) (url : String) :
    (fetchPage url = none →
      get_author_reputation_bs4 fetchPage findRepText url = none) ∧
    (∀ page, fetchPage url = some page → findRepText page = none →
      get_author_reputation_bs4 fetchPage findRepText url = none) ∧
    (∀ page t, fetchPage url = some page → findRepText page = some t →
      pyIsDigit (removeCommas (pyStrip t)) = false →
      get_author_reputation_bs4 fetchPage findRepText url = none) ∧
    (∀ v, get_author_reputation_bs4 fetchPage findRepText url = some v →
      0 ≤ v ∧ ∃ page t, fetchPage url = some page ∧ findRepText page = some t ∧
        pyIsDigit (removeCommas (pyStrip t)) = true ∧
        v = digitsToInt (removeCommas (pyStrip t))) ∧
    get_author_reputation_selenium fetchPage findRepText url
      = get_author_reputation_bs4 fetchPage findRepText url := by
  refine ⟨?_, ?_, ?_, ?_, ?_⟩
  · intro h; simp [get_author_reputation_bs4, h]
  · intro page hp hf; simp [get_author_reputation_bs4, hp, hf]
  · intro page t hp hf hd; simp [get_author_reputation_bs4, hp, hf, hd]
  · intro v hv
    cases hp : fetchPage url with
    | none => simp [get_author_reputation_bs4, hp] at hv
    | some page =>
      cases hf : findRepText page with
      | none => simp [get_author_reputation_bs4, hp, hf] at hv
      | some t =>
        by_cases hd : pyIsDigit (removeCommas (pyStrip t)) = true
        · have hveq : v = digitsToInt (removeCommas (pyStrip t)) := by
            simp [get_author_reputation_bs4, hp, hf, hd] at hv
            exact hv.symm
          exact ⟨by rw [hveq]; exact Int.ofNat_nonneg _,
            page, t, rfl, hf, hd, hveq⟩
        · have hd' : pyIsDigit (removeCommas (pyStrip t)) = false := by
            simpa using hd
          simp [get_author_reputation_bs4, hp, hf, hd'] at hv
  · rfl

/-- Witness for `reputation_guard`: a reputation element reading `10.5k`
yields `none`, and one reading `1,234` passes the digit guard. -/
theorem reputation_guard_witness :
    get_author_reputation_bs4 (fun _ => some ())
      (fun _ => some " 10.5k ") "u" = none ∧
    pyIsDigit (removeCommas (pyStrip "1,234")) = true := by
  constructor
  · exact (reputation_guard (fun _ => some ()) (fun _ => some " 10.5k ")
      "u").2.2.1 () " 10.5k " rfl rfl (by decide)
  · decide

/-! ## Persistence pipeline lemmas -/

/-- Resolving an author touches only the `authors` table. -/
theorem get_or_create_author_frame (db : DB) (n : String) (r : Option Int) :
    (get_or_create_author db n r).1.questions = db.questions ∧
    (get_or_create_author db n r).1.nextQuestion = db.nextQuestion := by
  unfold get_or_create_author
  split
  · split <;> exact ⟨rfl, rfl⟩
  · exact ⟨rfl, rfl⟩

/-- Resolving a tag touches only the `tags` table. -/
theorem get_or_create_tag_frame (d : DB) (t : String) :
    (get_or_create_tag d t).1.questions = d.questions := by
  unfold get_or_create_tag
  split <;> rfl

/-- One tag-loop iteration leaves the `questions` table unchanged. -/
theorem insertTagStep_frame (qid : Nat) (d : DB) (t : String) :
    (insertTagStep qid d t).questions = d.questions := by
  have hq := get_or_create_tag_frame d t
  simp only [insertTagStep]
  split <;> simpa using hq

/-- The tag loop leaves the `questions` table unchanged. -/
theorem insertTags_frame (qid : Nat) :
    ∀ (tags : List String) (d : DB),
      (insertTags qid d tags).questions = d.questions := by
  intro tags
  induction tags with
  | nil => intro d; rfl
  | cons t ts ih =>
    intro d
    have : insertTags qid d (t :: ts) = insertTags qid (insertTagStep qid d t) ts := rfl
    rw [this, ih, insertTagStep_frame]

/-- Shape of a successful `create_question`: the id handed back is the next
auto-increment value and exactly one question row — carrying the record's
title, link, text, publication date, the resolved author and the scrape
method — is appended. -/
theorem create_question_ok_shape {fail : QuestionData → Bool} {db db' : DB}
    {q : QuestionData} {m : Option String} {qid : Nat}
    (h : create_question fail db q m = .ok (db', qid)) :
    ∃ aid, qid = db.nextQuestion ∧
      db'.questions = db.questions ++
        [⟨db.nextQuestion, q.title, q.link, q.text, some aid,
          q.publication_date, m⟩] := by
  have hframe := get_or_create_author_frame db q.author_name q.author_reputation
  simp only [create_question] at h
  split at h
  · exact absurd h (by simp)
  · split at h
    · exact absurd h (by simp)
    · injection h with h'
      injection h' with h1 h2
      refine ⟨(get_or_create_author db q.author_name q.author_reputation).2,
        ?_, ?_⟩
      · rw [← h2, hframe.2]
      · rw [← h1, insertTags_frame]
        simp [hframe.1, hframe.2]

/-- A successful, actually-creating `create_question_if_not_exists` appends
exactly one question row for the record's link. -/
theorem if_not_exists_ok_true {fail : QuestionData → Bool} {db db' : DB}
    {q : QuestionData} {m : Option String} {qid : Nat}
    (h : create_question_if_not_exists fail db q m = .ok (db', qid, true)) :
    ∃ aid, qid = db.nextQuestion ∧
      db'.questions = db.questions ++
        [⟨db.nextQuestion, q.title, q.link, q.text, some aid,
          q.publication_date, m⟩] := by
  unfold create_question_if_not_exists at h
  split at h
  · exact absurd h (by simp)
  · split at h
    · rename_i heq
      injection h with h1
      simp only [Prod.mk.injEq] at h1
      exact create_question_ok_shape (by rw [heq, h1.1, h1.2.1])
    · exact absurd h (by simp)

/-- A record whose link is already stored is reported as a duplicate without
touching the state. -/
theorem if_not_exists_dup {fail : QuestionData → Bool} {db : DB}
    {q : QuestionData} {m : Option String} {row : QuestionRow}
    (hfound : db.questions.find? (fun r => r.link == q.link) = some row) :
    create_question_if_not_exists fail db q m = .ok (db, row.id, false) := by
  unfold create_question_if_not_exists
  rw [hfound]

/-- A fresh link on a non-failing backend is created successfully. -/
theorem if_not_exists_fresh {fail : QuestionData → Bool} {db : DB}
    {q : QuestionData} (m : Option String)
    (hfresh : db.questions.find? (fun r => r.link == q.link) = none)
    (hok : fail q = false) :
    ∃ db', create_question_if_not_exists fail db q m
      = .ok (db', db.nextQuestion, true) := by
  unfold create_question_if_not_exists create_question
  rw [hfresh]
  rcases hga : get_or_create_author db q.author_name q.author_reputation
    with ⟨db1, aid⟩
  simp only [hok]
  simp [hga]
  simpa [hga] using
    (get_or_create_author_frame db q.author_name q.author_reputation).2

/-- A successful lookup stays successful after rows are appended. -/
theorem find?_isSome_append {p : α → Bool} {l₁ : List α} (l₂ : List α)
    (h : (l₁.find? p).isSome = true) : ((l₁ ++ l₂).find? p).isSome = true := by
  induction l₁ with
  | nil => simp at h
  | cons a t ih =>
    cases hp : p a with
    | true => simp [List.find?_cons, hp]
    | false =>
      simp only [List.find?_cons, hp] at h
      simp only [List.cons_append, List.find?_cons, hp]
      exact ih h

/-- A failed lookup defers to the appended rows. -/
theorem find?_append_none {p : α → Bool} {l₁ : List α} (l₂ : List α)
    (h : l₁.find? p = none) : (l₁ ++ l₂).find? p = l₂.find? p := by
  induction l₁ with
  | nil => rfl
  | cons a t ih =>
    cases hp : p a with
    | true => simp [List.find?_cons, hp] at h
    | false =>
      simp only [List.find?_cons, hp] at h
      simp only [List.cons_append, List.find?_cons, hp]
      exact ih h

/-- A duplicate report leaves the state untouched. -/
theorem if_not_exists_ok_false {fail : QuestionData → Bool} {db db' : DB}
    {q : QuestionData} {m : Option String} {qid : Nat}
    (h : create_question_if_not_exists fail db q m = .ok (db', qid, false)) :
    db' = db := by
  unfold create_question_if_not_exists at h
  split at h
  · injection h with h1
    simp only [Prod.mk.injEq] at h1
    exact h1.1.symm
  · split at h
    · injection h with h1
      simp at h1
    · exact absurd h (by simp)

/-- A stored link stays stored across one batch step, whatever its outcome. -/
theorem batchStep_mono {fail : QuestionData → Bool} {m : Option String}
    {st : DB × List Nat × Nat} {q : QuestionData} {l : String}
    (h : hasLink st.1 l = true) :
    hasLink (batchStep fail m st q).1 l = true := by
  unfold batchStep
  cases hc : create_question_if_not_exists fail st.1 q m with
  | error e => exact h
  | ok r =>
    obtain ⟨d', qid, created⟩ := r
    cases created with
    | false =>
      rw [if_not_exists_ok_false hc]
      exact h
    | true =>
      obtain ⟨aid, -, hquestions⟩ := if_not_exists_ok_true hc
      simp only [hasLink, hquestions]
      exact find?_isSome_append _ h

/-- A stored link stays stored across the whole batch loop. -/
theorem batch_foldl_mono {fail : QuestionData → Bool} {m : Option String}
    (qs : List QuestionData) :
    ∀ (st : DB × List Nat × Nat) (l : String), hasLink st.1 l = true →
      hasLink (qs.foldl (batchStep fail m) st).1 l = true := by
  induction qs with
  | nil => intro st l h; exact h
  | cons q rest ih =>
    intro st l h
    exact ih (batchStep fail m st q) l (batchStep_mono h)

/-- After a batch step on a non-failing record, the record's link is stored. -/
theorem batchStep_adds {fail : QuestionData → Bool} {m : Option String}
    (st : DB × List Nat × Nat) {q : QuestionData} (hok : fail q = false) :
    hasLink (batchStep fail m st q).1 q.link = true := by
  unfold batchStep
  cases hf : st.1.questions.find? (fun r => r.link == q.link) with
  | some row =>
    rw [if_not_exists_dup hf]
    simp [hasLink, hf]
  | none =>
    obtain ⟨db', hdb'⟩ := if_not_exists_fresh m hf hok
    rw [hdb']
    obtain ⟨aid, -, hquestions⟩ := if_not_exists_ok_true hdb'
    simp only [hasLink, hquestions]
    rw [find?_append_none _ hf]
    simp [List.find?_cons]

/-- After a batch of non-failing records, every record's link is stored. -/
theorem batch_foldl_links (fail : QuestionData → Bool) (m : Option String)
    (qs : List QuestionData) :
    ∀ (st : DB × List Nat × Nat), (∀ q ∈ qs, fail q = false) →
      ∀ q ∈ qs, hasLink (qs.foldl (batchStep fail m) st).1 q.link = true := by
  induction qs with
  | nil => intro st _ q hq; exact absurd hq (by simp)
  | cons q rest ih =>
    intro st hok q' hq'
    rcases List.mem_cons.mp hq' with rfl | hmem
    · exact batch_foldl_mono rest _ _
        (batchStep_adds st (hok q' (by simp)))
    · exact ih (batchStep fail m st q)
        (fun r hr => hok r (List.mem_cons_of_mem _ hr)) q' hmem

/-- A batch whose every link is already stored is a pure duplicate count:
state and created ids are untouched and `skipped_count` grows by the batch
size. -/
theorem batch_foldl_dup {fail : QuestionData → Bool} {m : Option String} :
    ∀ (qs : List QuestionData) (db : DB) (ids : List Nat) (k : Nat),
      (∀ q ∈ qs, hasLink db q.link = true) →
      qs.foldl (batchStep fail m) (db, ids, k) = (db, ids, k + qs.length) := by
  intro qs
  induction qs with
  | nil => intro db ids k _; rfl
  | cons q rest ih =>
    intro db ids k hall
    have hq : hasLink db q.link = true := hall q (by simp)
    obtain ⟨row, hf⟩ := Option.isSome_iff_exists.mp hq
    have hstep : batchStep fail m (db, ids, k) q = (db, ids, k + 1) := by
      unfold batchStep
      rw [if_not_exists_dup hf]
    rw [List.foldl_cons, hstep,
      ih db ids (k + 1) (fun r hr => hall r (List.mem_cons_of_mem _ hr))]
    simp only [List.length_cons, Prod.mk.injEq, true_and]
    omega

/-- C1: storing a batch of records is idempotent.  On a backend with no
injected persistence failure, running `create_questions_batch` a second time
with the same record set leaves the whole database state unchanged (so zero
new Question rows and no new Author or Tag rows), reports no created ids,
and reports a duplicate count equal to the record count. -/
theorem store_batch_idempotent (fail : QuestionData → Bool) (db : DB)
    (qs : List QuestionData) (m : Option String)
    (hok : ∀ q ∈ qs, fail q = false)
    {db1 : DB} {ids1 : List Nat} {k1 : Nat}
    (h1 : create_questions_batch fail db qs m = (db1, ids1, k1)) :
    create_questions_batch fail db1 qs m = (db1, [], qs.length) := by
  have hlinks : ∀ q ∈ qs, hasLink db1 q.link = true := by
    intro q hq
    have hm := batch_foldl_links fail m qs (db, [], 0) hok q hq
    unfold create_questions_batch at h1
    rw [h1] at hm
    exact hm
  unfold create_questions_batch
  simpa using batch_foldl_dup qs db1 [] 0 hlinks

/-- Witness for `store_batch_idempotent`: re-storing a two-record batch is a
no-op reporting two duplicates. -/
theorem store_batch_idempotent_witness :
    create_questions_batch noFail
      (create_questions_batch noFail DB.empty
        [⟨"t1", "L1", "", ["x"], "alice", some 5, none⟩,
         ⟨"t2", "L2", "", [], "bob", none, none⟩] none).1
      [⟨"t1", "L1", "", ["x"], "alice", some 5, none⟩,
       ⟨"t2", "L2", "", [], "bob", none, none⟩] none
    = ((create_questions_batch noFail DB.empty
        [⟨"t1", "L1", "", ["x"], "alice", some 5, none⟩,
         ⟨"t2", "L2", "", [], "bob", none, none⟩] none).1, [], 2) :=
  store_batch_idempotent noFail DB.empty
    [⟨"t1", "L1", "", ["x"], "alice", some 5, none⟩,
     ⟨"t2", "L2", "", [], "bob", none, none⟩] none
    (fun _ _ => rfl) rfl

/-- C2: the question link is the dedup key and the first write for a link
wins.  Starting from any state not yet holding the link, storing a first
record and then a second record with the same link: the second is reported as
a duplicate of the first's row (same id, `created = False`), the state is
untouched by the second call, and exactly one question row holds that link,
carrying the first record's title. -/
theorem link_dedup_first_write_wins (fail : QuestionData → Bool) (db : DB)
    (q1 q2 : QuestionData) (m : Option String)
    (hlink : q2.link = q1.link)
    (hfresh : db.questions.find? (fun r => r.link == q1.link) = none)
    (hok : fail q1 = false) :
    ∃ db1 qid,
      create_question_if_not_exists fail db q1 m = .ok (db1, qid, true) ∧
      create_question_if_not_exists fail db1 q2 m = .ok (db1, qid, false) ∧
      (db1.questions.filter (fun r => r.link == q1.link)).map
        (fun r => r.title) = [q1.title] := by
  obtain ⟨db1, h1⟩ := if_not_exists_fresh m hfresh hok
  obtain ⟨aid, -, hquestions⟩ := if_not_exists_ok_true h1
  have hrow : (db1.questions.find? (fun r => r.link == q1.link))
      = some ⟨db.nextQuestion, q1.title, q1.link, q1.text, some aid,
          q1.publication_date, m⟩ := by
    rw [hquestions, find?_append_none _ hfresh]
    simp [List.find?_cons]
  refine ⟨db1, db.nextQuestion, h1, ?_, ?_⟩
  · have hfound : db1.questions.find? (fun r => r.link == q2.link)
        = some ⟨db.nextQuestion, q1.title, q1.link, q1.text, some aid,
            q1.publication_date, m⟩ := by
      rw [hlink]; exact hrow
    exact if_not_exists_dup hfound
  · rw [hquestions, List.filter_append]
    have hnil : db.questions.filter (fun r => r.link == q1.link) = [] := by
      rw [List.filter_eq_nil_iff]
      intro a ha
      have := List.find?_eq_none.mp hfresh a ha
      simpa using this
    rw [hnil]
    simp

/-- Witness for `link_dedup_first_write_wins`: two records sharing link `L`
with titles `t1` then `t2` — the second is a duplicate and the stored title
stays `t1`. -/
theorem link_dedup_first_write_wins_witness :
    ∃ db1 qid,
      create_question_if_not_exists noFail DB.empty
        ⟨"t1", "L", "", [], "a", none, none⟩ none = .ok (db1, qid, true) ∧
      create_question_if_not_exists noFail db1
        ⟨"t2", "L", "", [], "a", none, none⟩ none = .ok (db1, qid, false) ∧
      (db1.questions.filter (fun r => r.link == "L")).map
        (fun r => r.title) = ["t1"] :=
  link_dedup_first_write_wins noFail DB.empty
    ⟨"t1", "L", "", [], "a", none, none⟩
    ⟨"t2", "L", "", [], "a", none, none⟩ none rfl rfl rfl

/-! ## Author merge (C4) -/

/-- Counterexample to C4 as stated: an incoming reputation of `0` is present
(not `None`) and differs from the stored `100`, yet — because the code guards
the update with Python truthiness (`if reputation and ...`) — the stored value
is not updated to the incoming one. -/
theorem author_rep_zero_counterexample :
    ¬ ((get_or_create_author ⟨[⟨1, "alice", some 100⟩], [], [], [], 2, 1, 1⟩
        "alice" (some 0)).1.authors.map (fun a => a.reputation) = [some 0]) ∧
    (get_or_create_author ⟨[⟨1, "alice", some 100⟩], [], [], [], 2, 1, 1⟩
        "alice" (some 0)).1.authors = [⟨1, "alice", some 100⟩] := by
  exact ⟨by decide, by decide⟩

/-- C4 (amended): author deduplication is by name, with last-write-wins on
reputation restricted to incoming values that are present *and nonzero*
(Python truthiness).  First conjunct: when an author row matching the name
exists, a nonzero incoming reputation `r` resolves to that row's id and leaves
the row stored with reputation `r` (updated when it differed, untouched when
already equal) and no new row.  Second conjunct: starting from a state with no
row of that name, processing any nonempty sequence of observations leaves
exactly one author row with that name. -/
theorem author_merge_truthy :
    (∀ (db : DB) (name : String) (r : Int) (a : AuthorRow), r ≠ 0 →
      db.authors.find? (fun x => x.name == name) = some a →
      ∃ db', get_or_create_author db name (some r) = (db', a.id) ∧
        db'.authors.find? (fun x => x.name == name)
          = some ⟨a.id, a.name, some r⟩ ∧
        db'.authors.length = db.authors.length) ∧
    (∀ (db : DB) (name : String) (reps : List (Option Int)),
      db.authors.filter (fun x => x.name == name) = [] → reps ≠ [] →
      ((processAuthors db name reps).authors.filter
        (fun x => x.name == name)).length = 1) := by
  constructor
  · intro db name r a hr hfind
    by_cases hrep : a.reputation = some r
    · refine ⟨db, ?_, ?_, rfl⟩
      · unfold get_or_create_author
        rw [hfind]
        simp [hrep]
      · rw [hfind]
        obtain ⟨i, n, rep⟩ := a
        simp only at hrep
        rw [hrep]
    · have hcond : (repTruthy (some r) && a.reputation != some r) = true := by
        simp [repTruthy, hr, hrep]
      refine ⟨{ db with authors := db.authors.map (fun x => if x.id == a.id then { x with reputation := some r } else x) }, ?_, ?_, ?_⟩
      · unfold get_or_create_author
        rw [hfind]
        simp [hcond]
      · have hpf : ((fun x : AuthorRow => x.name == name) ∘
            (fun x => if x.id == a.id then { x with reputation := some r }
              else x)) = (fun x : AuthorRow => x.name == name) := by
          funext x
          by_cases hid : x.id = a.id <;> simp [hid]
        show (db.authors.map _).find? _ = _
        rw [List.find?_map, hpf, hfind]
        simp
      · show (db.authors.map _).length = _
        simp
  · intro db name reps hnil hne
    have hstep1 : ∀ (d : DB) (rep : Option Int),
        d.authors.filter (fun x => x.name == name) = [] →
        ((get_or_create_author d name rep).1.authors.filter
          (fun x => x.name == name)).length = 1 := by
      intro d rep hd
      have hfind : d.authors.find? (fun x => x.name == name) = none := by
        rw [List.find?_eq_none]
        intro x hx
        simpa using List.filter_eq_nil_iff.mp hd x hx
      unfold get_or_create_author
      rw [hfind]
      simp [List.filter_append, hd]
    have hstep2 : ∀ (d : DB) (rep : Option Int),
        ((d.authors.filter (fun x => x.name == name)).length = 1) →
        ((get_or_create_author d name rep).1.authors.filter
          (fun x => x.name == name)).length = 1 := by
      intro d rep hd
      cases hfind : d.authors.find? (fun x => x.name == name) with
      | none =>
        have : d.authors.filter (fun x => x.name == name) = [] := by
          rw [List.filter_eq_nil_iff]
          intro x hx
          simpa using List.find?_eq_none.mp hfind x hx
        rw [this] at hd
        simp at hd
      | some a =>
        have hpf : ((fun x : AuthorRow => x.name == name) ∘
            (fun x => if x.id == a.id then { x with reputation := rep }
              else x)) = (fun x : AuthorRow => x.name == name) := by
          funext x
          by_cases hid : x.id = a.id <;> simp [hid]
        unfold get_or_create_author
        rw [hfind]
        by_cases hcond : (repTruthy rep && a.reputation != rep) = true
        · simp only [hcond, if_true]
          rw [← List.countP_eq_length_filter, List.countP_map, hpf,
            List.countP_eq_length_filter]
          exact hd
        · simp only [hcond, if_false]
          exact hd
    have hfold : ∀ (l : List (Option Int)) (d : DB),
        ((d.authors.filter (fun x => x.name == name)).length = 1) →
        (((processAuthors d name l).authors.filter
          (fun x => x.name == name)).length = 1) := by
      intro l
      induction l with
      | nil => intro d hd; exact hd
      | cons r0 rs ih =>
        intro d hd
        exact ih _ (hstep2 d r0 hd)
    cases reps with
    | nil => exact absurd rfl hne
    | cons r0 rest =>
      exact hfold rest _ (hstep1 db r0 hnil)

/-- Witness for `author_merge_truthy`: observing reputation 200 for an author
stored with reputation 100 leaves one row with reputation 200;
observing 100 then 200 from scratch leaves exactly one row for the name. -/
theorem author_merge_truthy_witness :
    (∃ db', get_or_create_author
        ⟨[⟨1, "alice", some 100⟩], [], [], [], 2, 1, 1⟩ "alice" (some 200)
        = (db', 1) ∧
      db'.authors.find? (fun x => x.name == "alice")
        = some ⟨1, "alice", some 200⟩ ∧
      db'.authors.length = 1) ∧
    ((processAuthors DB.empty "alice" [some 100, some 200]).authors.filter
      (fun x => x.name == "alice")).length = 1 := by
  constructor
  · have h := author_merge_truthy.1
      ⟨[⟨1, "alice", some 100⟩], [], [], [], 2, 1, 1⟩ "alice" 200
      ⟨1, "alice", some 100⟩ (by decide) (by decide)
    simpa using h
  · exact author_merge_truthy.2 DB.empty "alice" [some 100, some 200]
      (by decide) (by decide)

/-! ## Batch fail-open (C7) -/

/-- Counterexample to C7 as stated: a record whose insert fails is *not*
counted anywhere — the batch result over just that record equals the result
over the empty batch (created ids `[]`, duplicate count `0`, state
untouched); the failure is only printed. -/
theorem batch_failure_unreported :
    create_questions_batch (fun q => q.link == "BAD") DB.empty
      [⟨"t", "BAD", "", [], "a", none, none⟩] none
      = create_questions_batch (fun q => q.link == "BAD") DB.empty [] none ∧
    create_questions_batch (fun q => q.link == "BAD") DB.empty
      [⟨"t", "BAD", "", [], "a", none, none⟩] none
      = (DB.empty, [], 0) := by
  exact ⟨by decide, by decide⟩

/-- C7 (amended): per-record transactional fail-open.  When a record's
question insert fails (any persistence failure other than the expected
duplicate), that record's transaction is rolled back in full — including its
author write — and processing continues with the remaining records from the
untouched state: the batch outcome is exactly the outcome over the remaining
records, and nothing about the failed record (no failed count) appears in the
returned summary; no exception escapes the batch operation (its result is a
plain summary by construction). -/
theorem batch_fail_open (fail : QuestionData → Bool) (db : DB)
    (r : QuestionData) (rest : List QuestionData) (m : Option String)
    (hfail : fail r = true)
    (hfresh : db.questions.find? (fun x => x.link == r.link) = none) :
    create_questions_batch fail db (r :: rest) m
      = create_questions_batch fail db rest m := by
  unfold create_questions_batch
  rw [List.foldl_cons]
  have hstep : batchStep fail m (db, ([], 0)) r = (db, ([], 0)) := by
    unfold batchStep create_question_if_not_exists create_question
    rw [hfresh]
    simp [hfail]
  rw [hstep]

/-- Witness for `batch_fail_open`: a batch of a failing record followed by a
good one behaves exactly like the batch of the good record alone. -/
theorem batch_fail_open_witness :
    create_questions_batch (fun q => q.link == "BAD") DB.empty
      [⟨"t", "BAD", "", [], "a", none, none⟩,
       ⟨"t2", "L2", "", [], "b", none, none⟩] none
      = create_questions_batch (fun q => q.link == "BAD") DB.empty
        [⟨"t2", "L2", "", [], "b", none, none⟩] none :=
  batch_fail_open (fun q => q.link == "BAD") DB.empty
    ⟨"t", "BAD", "", [], "a", none, none⟩
    [⟨"t2", "L2", "", [], "b", none, none⟩] none rfl rfl

/-! ## Text normalizer lemmas -/

/-- The helper `skipWs` finishes the pending whitespace run and resumes collapsing. -/
theorem skipWs_eq : ∀ l : List Char,
    skipWs l = collapseWs (l.dropWhile isPySpace) := by
  intro l
  induction l with
  | nil => rfl
  | cons c rest ih =>
    cases hc : isPySpace c with
    | true => simp [skipWs, hc, List.dropWhile_cons, ih]
    | false => simp [skipWs, collapseWs, hc, List.dropWhile_cons]

/-- Collapsing passes an all-non-whitespace block through unchanged. -/
theorem collapseWs_nonws_block :
    ∀ (m b : List Char), (∀ c ∈ m, isPySpace c = false) →
      collapseWs (m ++ b) = m ++ collapseWs b := by
  intro m
  induction m with
  | nil => intro b _; rfl
  | cons c cs ih =>
    intro b hm
    have hc : isPySpace c = false := hm c (by simp)
    rw [List.cons_append,
      show collapseWs (c :: (cs ++ b)) = c :: collapseWs (cs ++ b) from by
        simp [collapseWs, hc],
      ih b (fun x hx => hm x (by simp [hx])), List.cons_append]

/-- Dropping leading whitespace stops no later than a non-whitespace block. -/
theorem dropWhile_append_mid (x m b : List Char) (c : Char) (cs : List Char)
    (hm : m = c :: cs) (hc : isPySpace c = false) :
    (x ++ m ++ b).dropWhile isPySpace
      = x.dropWhile isPySpace ++ m ++ b := by
  rw [List.append_assoc, List.dropWhile_append]
  by_cases hx : (x.dropWhile isPySpace).isEmpty
  · rw [if_pos hx]
    rw [List.isEmpty_iff] at hx
    rw [hx, hm]
    simp [List.dropWhile_cons, hc]
  · rw [if_neg hx, List.append_assoc]

/-- The collapsed text contains no newline: every whitespace run (newlines
included) has become a single space. -/
theorem collapseWs_skipWs_no_nl :
    ∀ l : List Char, '\n' ∉ collapseWs l ∧ '\n' ∉ skipWs l := by
  intro l
  induction l with
  | nil => exact ⟨by simp [collapseWs], by simp [skipWs]⟩
  | cons c rest ih =>
    constructor
    · cases hc : isPySpace c with
      | true =>
        simp only [collapseWs, hc, if_true]
        intro hmem
        rcases List.mem_cons.mp hmem with h | h
        · exact absurd h (by decide)
        · exact ih.2 h
      | false =>
        simp only [collapseWs, hc, Bool.false_eq_true, if_false]
        intro hmem
        rcases List.mem_cons.mp hmem with h | h
        · rw [← h] at hc
          exact absurd hc (by decide)
        · exact ih.1 h
    · cases hc : isPySpace c with
      | true =>
        simp only [skipWs, hc, if_true]
        exact ih.2
      | false =>
        simp only [skipWs, hc, Bool.false_eq_true, if_false]
        intro hmem
        rcases List.mem_cons.mp hmem with h | h
        · rw [← h] at hc
          exact absurd hc (by decide)
        · exact ih.1 h

/-- The blank-line substitution is the identity on newline-free text. -/
theorem subBlankFuel_id : ∀ (fuel : Nat) (l : List Char), '\n' ∉ l →
    subBlankFuel fuel l = l := by
  intro fuel
  induction fuel with
  | zero => intro l _; cases l <;> rfl
  | succ n ih =>
    intro l hl
    cases l with
    | nil => rfl
    | cons c rest =>
      have hc : ¬ c = '\n' := by
        intro h
        exact hl (h ▸ List.mem_cons_self c rest)
      simp only [subBlankFuel, if_neg hc]
      rw [ih rest (fun h => hl (List.mem_cons_of_mem _ h))]

/-- The blank-line substitution is the identity on newline-free text. -/
theorem subBlank_id (l : List Char) (h : '\n' ∉ l) : subBlank l = l :=
  subBlankFuel_id _ _ h

/-- Stripping only removes characters that were present. -/
theorem mem_trimChars {c : Char} {l : List Char} (h : c ∈ trimChars l) :
    c ∈ l := by
  unfold trimChars at h
  rw [List.mem_reverse] at h
  have h1 : c ∈ (l.dropWhile isPySpace).reverse :=
    (List.dropWhile_suffix _).subset h
  rw [List.mem_reverse] at h1
  exact (List.dropWhile_suffix _).subset h1

/-- Stripping preserves any interior all-non-whitespace block. -/
theorem trimChars_keeps_block {m l : List Char} (c : Char) (cs : List Char)
    (hm : m = c :: cs) (hnw : ∀ x ∈ m, isPySpace x = false)
    (h : m <:+: l) : m <:+: trimChars l := by
  obtain ⟨s, t, rfl⟩ := h
  have hmr : m.reverse ≠ [] := by simp [hm]
  obtain ⟨c', cs', hm'⟩ := List.exists_cons_of_ne_nil hmr
  have hc' : isPySpace c' = false := by
    apply hnw
    rw [← List.mem_reverse, hm']
    simp
  unfold trimChars
  rw [dropWhile_append_mid s m t c cs hm (hnw c (by simp [hm]))]
  have hrev : (s.dropWhile isPySpace ++ m ++ t).reverse
      = t.reverse ++ m.reverse ++ (s.dropWhile isPySpace).reverse := by
    simp [List.reverse_append, List.append_assoc]
  rw [hrev, dropWhile_append_mid t.reverse m.reverse
    (s.dropWhile isPySpace).reverse c' cs' hm' hc']
  refine ⟨s.dropWhile isPySpace, (t.reverse.dropWhile isPySpace).reverse, ?_⟩
  simp [List.reverse_append, List.append_assoc]

/-- A block at the start of a list occurs within the list. -/
theorem starts_within {α : Type} {m l : List α} (h : m <+: l) : m <:+: l := by
  obtain ⟨t, rfl⟩ := h
  exact ⟨[], t, rfl⟩

/-- A block occurring within the tail occurs within a longer list. -/
theorem within_append_left (x : List Char) {m r : List Char}
    (h : m <:+: r) : m <:+: x ++ r := by
  obtain ⟨s, t, rfl⟩ := h
  exact ⟨x ++ s, t, by simp [List.append_assoc]⟩

/-- Whitespace collapsing preserves any interior all-non-whitespace block. -/
theorem collapseWs_keeps_block : ∀ (n : Nat) (a m b : List Char) (c0 : Char)
    (cs0 : List Char), a.length ≤ n → m = c0 :: cs0 →
    (∀ x ∈ m, isPySpace x = false) →
    m <:+: collapseWs (a ++ m ++ b) := by
  intro n
  induction n with
  | zero =>
    intro a m b c0 cs0 hlen hm hnw
    have ha : a = [] := List.length_eq_zero.mp (Nat.le_zero.mp hlen)
    subst ha
    rw [List.nil_append, collapseWs_nonws_block m b hnw]
    exact starts_within (List.prefix_append m _)
  | succ n ih =>
    intro a m b c0 cs0 hlen hm hnw
    cases a with
    | nil =>
      rw [List.nil_append, collapseWs_nonws_block m b hnw]
      exact starts_within (List.prefix_append m _)
    | cons c rest =>
      cases hc : isPySpace c with
      | false =>
        rw [List.cons_append, List.cons_append,
          show collapseWs (c :: (rest ++ m ++ b))
              = c :: collapseWs (rest ++ m ++ b) from by simp [collapseWs, hc]]
        have hrest : rest.length ≤ n := by
          simp at hlen
          omega
        exact List.infix_cons (ih rest m b c0 cs0 hrest hm hnw)
      | true =>
        rw [List.cons_append, List.cons_append,
          show collapseWs (c :: (rest ++ m ++ b))
              = ' ' :: skipWs (rest ++ m ++ b) from by simp [collapseWs, hc],
          skipWs_eq,
          dropWhile_append_mid rest m b c0 cs0 hm
            (hnw c0 (by rw [hm]; simp))]
        have h1 : (rest.dropWhile isPySpace).length ≤ rest.length :=
          (List.dropWhile_suffix _).length_le
        have hdrop : (rest.dropWhile isPySpace).length ≤ n := by
          simp at hlen
          omega
        exact List.infix_cons
          (ih (rest.dropWhile isPySpace) m b c0 cs0 hdrop hm hnw)

/-- A member string's characters form an infix of the separator-join. -/
theorem mem_joinStringsSep {s : String} (sep : List Char) :
    ∀ {ss : List String}, s ∈ ss → s.data <:+: joinStringsSep sep ss := by
  intro ss
  induction ss with
  | nil => intro h; simp at h
  | cons x rest ih =>
    intro h
    rcases List.mem_cons.mp h with rfl | hmem
    · cases rest with
      | nil => exact ⟨[], [], by simp [joinStringsSep]⟩
      | cons y ys =>
        show s.data <:+: s.data ++ sep ++ joinStringsSep sep (y :: ys)
        rw [List.append_assoc]
        exact starts_within (List.prefix_append s.data _)
    · cases rest with
      | nil => simp at hmem
      | cons y ys =>
        show s.data <:+: x.data ++ sep ++ joinStringsSep sep (y :: ys)
        rw [List.append_assoc]
        exact within_append_left x.data
          (within_append_left sep (ih hmem))

mutual
/-- A node containing a `code`/`pre` block contributes, after rewriting, a
text node that starts with the newline-wrapped backtick fence. -/
theorem fence_mem : ∀ (h : Html), containsCodePre h = true →
    ∃ s ∈ stringsOf (wrapCode h), ("\n```\n" : String).data <+: s.data
  | .text s, hc => by simp [containsCodePre] at hc
  | .elem t cs, hc => by
    by_cases ht : isFenceTag t = true
    · refine ⟨"\n```\n" ++ getText (.elem t cs) ++ "\n```\n", ?_, ?_⟩
      · simp [wrapCode, ht, stringsOf, stringsOfList]
      · simp only [String.data_append]
        rw [List.append_assoc]
        exact List.prefix_append _ _
    · have hcs : containsCodePreList cs = true := by
        simp only [containsCodePre, ht, Bool.false_or] at hc
        exact hc
      obtain ⟨s, hs, hp⟩ := fence_mem_list cs hcs
      refine ⟨s, ?_, hp⟩
      simpa [wrapCode, ht, stringsOf] using hs

/-- List version of `fence_mem`. -/
theorem fence_mem_list : ∀ (l : List Html), containsCodePreList l = true →
    ∃ s ∈ stringsOfList (wrapCodeList l), ("\n```\n" : String).data <+: s.data
  | [], hc => by simp [containsCodePreList] at hc
  | h :: l, hc => by
    by_cases hh : containsCodePre h = true
    · obtain ⟨s, hs, hp⟩ := fence_mem h hh
      refine ⟨s, ?_, hp⟩
      show s ∈ stringsOf (wrapCode h) ++ stringsOfList (wrapCodeList l)
      exact List.mem_append_left _ hs
    · have hl : containsCodePreList l = true := by
        simp only [containsCodePreList, Bool.or_eq_true] at hc
        exact hc.resolve_left hh
      obtain ⟨s, hs, hp⟩ := fence_mem_list l hl
      refine ⟨s, ?_, hp⟩
      show s ∈ stringsOf (wrapCode h) ++ stringsOfList (wrapCodeList l)
      exact List.mem_append_right _ hs
end

/-- The output of the normalizer never contains a newline: the \s+ collapse
turns every newline into part of a collapsed run replaced by one space, the
blank-line substitution then finds nothing, and stripping removes nothing
new. -/
theorem clean_html_no_nl (doc : List Html) :
    '\n' ∉ (clean_html_text doc).data := by
  show '\n' ∉ trimChars (subBlank (collapseWs
    (joinStringsSep [' '] (stringsOfList (wrapCodeList doc)))))
  intro h
  have h1 := mem_trimChars h
  rw [subBlank_id _ ((collapseWs_skipWs_no_nl _).1)] at h1
  exact (collapseWs_skipWs_no_nl _).1 h1

/-- A document containing a `code`/`pre` block normalizes to text containing
the backtick fence marker. -/
theorem clean_html_fence (doc : List Html)
    (hc : containsCodePreList doc = true) :
    ("```" : String).data <:+: (clean_html_text doc).data := by
  obtain ⟨s, hs, hp⟩ := fence_mem_list doc hc
  have hjoin : s.data <:+:
      joinStringsSep [' '] (stringsOfList (wrapCodeList doc)) :=
    mem_joinStringsSep [' '] hs
  have hfence : ("\n```\n" : String).data <:+:
      joinStringsSep [' '] (stringsOfList (wrapCodeList doc)) :=
    (starts_within hp).trans hjoin
  obtain ⟨a, b, hab⟩ := hfence
  have hab' : (a ++ ['\n']) ++ ("```" : String).data ++ ('\n' :: b)
      = joinStringsSep [' '] (stringsOfList (wrapCodeList doc)) := by
    rw [← hab]
    have h1 : ("\n```\n" : String).data = ['\n', '`', '`', '`', '\n'] := by
      decide
    have h2 : ("```" : String).data = ['`', '`', '`'] := by decide
    rw [h1, h2]
    simp
  have hbacks : ("```" : String).data <:+:
      collapseWs (joinStringsSep [' '] (stringsOfList (wrapCodeList doc))) := by
    rw [← hab']
    exact collapseWs_keeps_block (a ++ ['\n']).length (a ++ ['\n']) _ ('\n' :: b)
      '`' ['`', '`'] le_rfl (by decide) (by decide)
  show ("```" : String).data <:+: trimChars (subBlank (collapseWs
    (joinStringsSep [' '] (stringsOfList (wrapCodeList doc)))))
  rw [subBlank_id _ ((collapseWs_skipWs_no_nl _).1)]
  exact trimChars_keeps_block '`' ['`', '`'] (by decide) (by decide) hbacks

/-- Counterexample to C3 as stated: for the code block `a  b`, the normalizer
yields an inline ``` ``` a b ``` ``` — the whole-text whitespace collapse has
rewritten the block's internal double space to one space and pulled the
fences onto the same line, so no fenced-on-its-own-line region with the
verbatim block text exists in the output. -/
theorem code_fence_not_verbatim :
    clean_html_text [Html.elem "code" [Html.text "a  b"]] = "``` a b ```" ∧
    ¬ ∃ pre post : List Char,
        (clean_html_text [Html.elem "code" [Html.text "a  b"]]).data
          = pre ++ (("```\n" : String).data ++ ("a  b" : String).data
              ++ ("\n```" : String).data) ++ post := by
  refine ⟨by decide, ?_⟩
  rintro ⟨pre, post, h⟩
  have hmem : '\n' ∈
      (clean_html_text [Html.elem "code" [Html.text "a  b"]]).data := by
    rw [h]
    have : '\n' ∈ ("```\n" : String).data := by decide
    simp [List.mem_append, this]
  have hno : '\n' ∉
      (clean_html_text [Html.elem "code" [Html.text "a  b"]]).data := by
    decide
  exact hno hmem

/-- C3 (amended): for every markup input containing a code or preformatted
block, the normalizer's output does contain the triple-backtick fence marker,
but inline rather than on its own lines: the output never contains a newline
at all (so the fence cannot sit on its own line, and the block's internal
whitespace has been collapsed along with the rest of the text instead of
being preserved verbatim). -/
theorem code_fence_amended (doc : List Html) :
    (containsCodePreList doc = true →
      ("```" : String).data <:+: (clean_html_text doc).data) ∧
    '\n' ∉ (clean_html_text doc).data :=
  ⟨fun hc => clean_html_fence doc hc, clean_html_no_nl doc⟩

/-- Witness for `code_fence_amended`: a document with a code block whose text
is `x  y` yields output containing ``` ``` ``` and no newline. -/
theorem code_fence_amended_witness :
    (("```" : String).data <:+:
      (clean_html_text [Html.elem "p" [Html.text "see"],
        Html.elem "code" [Html.text "x  y"]]).data) ∧
    '\n' ∉ (clean_html_text [Html.elem "p" [Html.text "see"],
        Html.elem "code" [Html.text "x  y"]]).data :=
  ⟨(code_fence_amended [Html.elem "p" [Html.text "see"],
      Html.elem "code" [Html.text "x  y"]]).1 (by decide),
    (code_fence_amended [Html.elem "p" [Html.text "see"],
      Html.elem "code" [Html.text "x  y"]]).2⟩

/-- The first character surviving a whitespace skip is non-whitespace. -/
theorem skipWs_head : ∀ {l : List Char} {c : Char},
    (skipWs l).head? = some c → isPySpace c = false := by
  intro l
  induction l with
  | nil => intro c h; simp [skipWs] at h
  | cons a rest ih =>
    intro c h
    cases ha : isPySpace a with
    | true =>
      rw [show skipWs (a :: rest) = skipWs rest from by simp [skipWs, ha]] at h
      exact ih h
    | false =>
      rw [show skipWs (a :: rest) = a :: collapseWs rest from by
        simp [skipWs, ha]] at h
      simp only [List.head?_cons, Option.some.injEq] at h
      rw [← h]
      exact ha

/-- The collapsed text never has two adjacent whitespace characters. -/
theorem collapseWs_chain' : ∀ l : List Char,
    List.Chain' (fun x y => isPySpace x = false ∨ isPySpace y = false)
      (collapseWs l) ∧
    List.Chain' (fun x y => isPySpace x = false ∨ isPySpace y = false)
      (skipWs l) := by
  intro l
  induction l with
  | nil => exact ⟨by simp [collapseWs], by simp [skipWs]⟩
  | cons c rest ih =>
    constructor
    · cases hc : isPySpace c with
      | true =>
        rw [show collapseWs (c :: rest) = ' ' :: skipWs rest from by
          simp [collapseWs, hc]]
        rw [List.chain'_cons']
        refine ⟨?_, ih.2⟩
        intro b hb
        exact Or.inr (skipWs_head (Option.mem_def.mp hb))
      | false =>
        rw [show collapseWs (c :: rest) = c :: collapseWs rest from by
          simp [collapseWs, hc]]
        rw [List.chain'_cons']
        exact ⟨fun b _ => Or.inl hc, ih.1⟩
    · cases hc : isPySpace c with
      | true =>
        rw [show skipWs (c :: rest) = skipWs rest from by simp [skipWs, hc]]
        exact ih.2
      | false =>
        rw [show skipWs (c :: rest) = c :: collapseWs rest from by
          simp [skipWs, hc]]
        rw [List.chain'_cons']
        exact ⟨fun b _ => Or.inl hc, ih.1⟩

/-- The head surviving a `dropWhile` fails the predicate. -/
theorem head?_dropWhile {p : Char → Bool} : ∀ {l : List Char} {c : Char},
    (l.dropWhile p).head? = some c → p c = false := by
  intro l
  induction l with
  | nil => intro c h; simp at h
  | cons a rest ih =>
    intro c h
    cases ha : p a with
    | true =>
      rw [List.dropWhile_cons_of_pos ha] at h
      exact ih h
    | false =>
      rw [List.dropWhile_cons_of_neg (by simp [ha])] at h
      simp only [List.head?_cons, Option.some.injEq] at h
      rw [← h]
      exact ha

/-- Stripping preserves the no-adjacent-whitespace property. -/
theorem trimChars_chain' {l : List Char}
    (h : List.Chain' (fun x y => isPySpace x = false ∨ isPySpace y = false)
      l) :
    List.Chain' (fun x y => isPySpace x = false ∨ isPySpace y = false)
      (trimChars l) := by
  unfold trimChars
  rw [List.chain'_reverse]
  refine List.Chain'.suffix ?_ (List.dropWhile_suffix _)
  rw [List.chain'_reverse]
  exact List.Chain'.suffix h (List.dropWhile_suffix _)

/-- The stripped text does not start with whitespace. -/
theorem trimChars_head {l : List Char} {c : Char}
    (h : (trimChars l).head? = some c) : isPySpace c = false := by
  unfold trimChars at h
  rw [List.head?_reverse] at h
  have hne : ((l.dropWhile isPySpace).reverse).dropWhile isPySpace ≠ [] := by
    intro hnil
    rw [hnil] at h
    simp at h
  have hsuf : ((l.dropWhile isPySpace).reverse).dropWhile isPySpace
      <:+ (l.dropWhile isPySpace).reverse := List.dropWhile_suffix isPySpace
  obtain ⟨tpre, hteq⟩ := hsuf
  have hlast : ((l.dropWhile isPySpace).reverse).getLast? = some c := by
    rw [← hteq, List.getLast?_append_of_ne_nil tpre hne]
    exact h
  rw [List.getLast?_reverse] at hlast
  exact head?_dropWhile hlast

/-- The stripped text does not end with whitespace. -/
theorem trimChars_last {l : List Char} {c : Char}
    (h : (trimChars l).getLast? = some c) : isPySpace c = false := by
  unfold trimChars at h
  rw [List.getLast?_reverse] at h
  exact head?_dropWhile h

/-- Counterexample to C8 as stated: the input text `a\n\nb` holds a run of
blank lines, which the claim says collapses to exactly one blank line — but
the normalizer output is `a b`, containing no newline at all, because
the whitespace-run collapse runs first and swallows every newline, leaving the
blank-line substitution nothing to match. -/
theorem blank_lines_not_preserved :
    clean_html_text [Html.text "a\n\nb"] = "a b" ∧
    '\n' ∉ (clean_html_text [Html.text "a\n\nb"]).data :=
  ⟨by decide, by decide⟩

/-- C8 (amended): in the normalizer's output, runs of *any* whitespace —
horizontal whitespace and newlines alike — are collapsed to a single space
(no two adjacent whitespace characters survive), and leading/trailing
whitespace is trimmed; in particular `normalize("<p>a   b</p>")` equals
`"a b"` and empty input yields the empty string.  Runs of blank lines do
*not* survive as a blank line — they collapse to one space like all other
whitespace. -/
theorem whitespace_collapse_amended (doc : List Html) :
    List.Chain' (fun x y => isPySpace x = false ∨ isPySpace y = false)
      (clean_html_text doc).data ∧
    (∀ c, (clean_html_text doc).data.head? = some c →
      isPySpace c = false) ∧
    (∀ c, (clean_html_text doc).data.getLast? = some c →
      isPySpace c = false) ∧
    clean_html_text [Html.elem "p" [Html.text "a   b"]] = "a b" ∧
    clean_html_text [] = "" := by
  refine ⟨?_, ?_, ?_, by decide, rfl⟩
  · show List.Chain' _ (trimChars (subBlank (collapseWs
      (joinStringsSep [' '] (stringsOfList (wrapCodeList doc))))))
    rw [subBlank_id _ ((collapseWs_skipWs_no_nl _).1)]
    exact trimChars_chain' (collapseWs_chain' _).1
  · intro c hc
    exact trimChars_head hc
  · intro c hc
    exact trimChars_last hc

/-- Witness for `whitespace_collapse_amended`: the output of normalizing a
plain text node starts with its non-whitespace character, and the two
concrete equalities hold. -/
theorem whitespace_collapse_amended_witness :
    isPySpace 'a' = false ∧
    clean_html_text [Html.elem "p" [Html.text "a   b"]] = "a b" ∧
    clean_html_text [] = "" :=
  ⟨(whitespace_collapse_amended [Html.text "a"]).2.1 'a' (by decide),
   (whitespace_collapse_amended []).2.2.2.1,
   (whitespace_collapse_amended []).2.2.2.2⟩

end SOScraper
